import Mathlib

/-!
Shallow embedding of the task-orchestration core of `src/ai_coding_agent.py`
(classes `TaskPlan`, `AgentMemory`, `CodingAgent`), for checking the
specification's claims about planning, step execution, outcome evaluation,
the retry loop, learned-pattern accounting and memory persistence.

Modelling conventions:
* The LLM collaborator is external and nondeterministic; it is modelled as a
  script of upcoming response strings (`AgentState.oracle`) consumed in order
  by each `llm.ainvoke` call.  Prompt texts are built and sent to the
  collaborator in the source; since the collaborator is modelled by the
  script, prompt contents do not influence the embedded semantics.
* `datetime.now()` is modelled by a monotonically increasing counter
  (`AgentState.now`); `isoformat()` / `str(datetime)` by `isoTime`.
  Timestamps that the source keeps as `datetime` objects (`TaskPlan.created_at`,
  `TaskPlan.completed_at`) are serialized as JSON numbers — the spec's
  round-trip property is stated "modulo the string serialization of
  timestamps".
* `json.loads` on the text extracted by `re.search(r'\x7b.*\x7d', ..., DOTALL)`
  is modelled by `extractBraces` composed with `jsonParse`, a JSON parser for
  the fragment of JSON the agent exchanges (null/true/false, integers,
  strings with the common escapes, arrays, objects).
* The persisted memory file holds the JSON document written by
  `json.dumps(memory.model_dump(), default=str)`; it is modelled at the
  document level (`AgentState.disk : Option Json`), `json.dumps`/`json.loads`
  being exact inverses on documents.
* `AgentState.execLog` is pure instrumentation: the list of step texts passed
  to the Step Executor, used to state "the Executor is invoked exactly twice"
  claims.  It affects nothing else.
-/

set_option maxRecDepth 8000

/-- JSON documents, as produced by `json.loads` in the source. -/
inductive Json where
  | null : Json
  | bool : Bool → Json
  | num : Int → Json
  | str : String → Json
  | arr : List Json → Json
  | obj : List (String × Json) → Json

/-- Whitespace skipping of the JSON lexer. -/
def skipWs : List Char → List Char
  | [] => []
  | c :: cs => if c == ' ' || c == '\n' || c == '\t' || c == '\r' then skipWs cs else c :: cs

/-- JSON string escapes (the common subset; `\uXXXX` is not modelled). -/
def escChar (e : Char) : Option Char :=
  if e = 'n' then some '\n'
  else if e = 't' then some '\t'
  else if e = 'r' then some '\r'
  else if e = '"' then some '"'
  else if e = '\\' then some '\\'
  else if e = '/' then some '/'
  else none

/-- Body of a JSON string literal, after the opening quote. -/
def parseStrChars : List Char → Option (List Char × List Char)
  | [] => none
  | '"' :: cs => some ([], cs)
  | '\\' :: cs =>
    match cs with
    | [] => none
    | e :: cs2 =>
      match escChar e with
      | some c =>
        match parseStrChars cs2 with
        | some (r, rest) => some (c :: r, rest)
        | none => none
      | none => none
  | c :: cs =>
    match parseStrChars cs with
    | some (r, rest) => some (c :: r, rest)
    | none => none

/-- Decimal digit run of the JSON lexer. -/
def digitsLoop (acc : Nat) : List Char → Nat × List Char
  | [] => (acc, [])
  | c :: cs => if c.isDigit then digitsLoop (acc * 10 + (c.toNat - 48)) cs else (acc, c :: cs)

/-- Remaining `, value` items of a JSON array, `p` parsing one value. -/
def arrRest (p : List Char → Option (Json × List Char)) :
    Nat → List Json → List Char → Option (List Json × List Char)
  | 0, _, _ => none
  | f + 1, acc, cs =>
    match skipWs cs with
    | ']' :: r => some (acc.reverse, r)
    | ',' :: r =>
      match p r with
      | some (v, r2) => arrRest p f (v :: acc) r2
      | none => none
    | _ => none

/-- Remaining `, "key": value` items of a JSON object, `p` parsing one value. -/
def objRest (p : List Char → Option (Json × List Char)) :
    Nat → List (String × Json) → List Char → Option (List (String × Json) × List Char)
  | 0, _, _ => none
  | f + 1, acc, cs =>
    match skipWs cs with
    | '\x7d' :: r => some (acc.reverse, r)
    | ',' :: r =>
      match skipWs r with
      | '"' :: r2 =>
        match parseStrChars r2 with
        | some (kcs, r3) =>
          match skipWs r3 with
          | ':' :: r4 =>
            match p r4 with
            | some (v, r5) => objRest p f ((String.mk kcs, v) :: acc) r5
            | none => none
          | _ => none
        | none => none
      | _ => none
    | _ => none

/-- Require the given literal characters at the head of the input (the tails
of the keywords `null`, `true`, `false`). -/
def dropLit : List Char → List Char → Option (List Char)
  | [], cs => some cs
  | l :: ls, c :: cs => if c = l then dropLit ls cs else none
  | _ :: _, [] => none

/-- One JSON value (fuel-bounded recursive descent, fuel ≥ nesting depth).
Dispatch is on the first non-blank character. -/
def parseVal : Nat → List Char → Option (Json × List Char)
  | 0, _ => none
  | f + 1, input =>
    match skipWs input with
    | [] => none
    | c :: rest =>
      if c = 'n' then (dropLit ['u', 'l', 'l'] rest).map fun r => (Json.null, r)
      else if c = 't' then (dropLit ['r', 'u', 'e'] rest).map fun r => (Json.bool true, r)
      else if c = 'f' then (dropLit ['a', 'l', 's', 'e'] rest).map fun r => (Json.bool false, r)
      else if c = '"' then
        match parseStrChars rest with
        | some (scs, r2) => some (Json.str (String.mk scs), r2)
        | none => none
      else if c = '[' then
        match skipWs rest with
        | ']' :: r2 => some (Json.arr [], r2)
        | _ =>
          match parseVal f rest with
          | some (v, r2) =>
            match arrRest (parseVal f) f [v] r2 with
            | some (vs, r3) => some (Json.arr vs, r3)
            | none => none
          | none => none
      else if c = '\x7b' then
        match skipWs rest with
        | '\x7d' :: r2 => some (Json.obj [], r2)
        | '"' :: r2 =>
          match parseStrChars r2 with
          | some (kcs, r3) =>
            match skipWs r3 with
            | ':' :: r4 =>
              match parseVal f r4 with
              | some (v, r5) =>
                match objRest (parseVal f) f [(String.mk kcs, v)] r5 with
                | some (ps, r6) => some (Json.obj ps, r6)
                | none => none
              | none => none
            | _ => none
          | none => none
        | _ => none
      else if c = '-' then
        match rest with
        | d :: r2 =>
          if d.isDigit then
            match digitsLoop (d.toNat - 48) r2 with
            | (n, r3) => some (Json.num (-(n : Int)), r3)
          else none
        | [] => none
      else if c.isDigit then
        match digitsLoop (c.toNat - 48) rest with
        | (n, r2) => some (Json.num (n : Int), r2)
      else none

/-- `json.loads`: a whole document, nothing but whitespace after it. -/
def jsonParse (s : String) : Option Json :=
  match parseVal (s.length + 1) s.data with
  | some (j, r) => if (skipWs r).isEmpty then some j else none
  | none => none

/-- The greedy-brace JSON extraction used twice in the source:
`re.search` with pattern "brace, any characters, brace" under DOTALL matches
from the first opening brace to the last closing brace, provided a closing
brace occurs after the first opening one; otherwise there is no match. -/
def extractBraces (s : String) : Option String :=
  let cs := s.data
  match cs.findIdx? (· == '\x7b'), cs.reverse.findIdx? (· == '\x7d') with
  | some i, some jr =>
    let j := cs.length - 1 - jr
    if i < j then some (String.mk ((cs.drop i).take (j - i + 1))) else none
  | _, _ => none

/-- Python dict lookup on the fields of a decoded JSON object (last
occurrence of a key wins, as in `json.loads`). -/
def lookupField (k : String) : List (String × Json) → Option Json
  | [] => none
  | p :: rest =>
    match lookupField k rest with
    | some v => some v
    | none => if p.1 = k then some p.2 else none

/-- `d.get(k, default)` followed by use of the value (source uses the raw
parsed dict for evaluations). -/
def Json.getD (j : Json) (k : String) (d : Json) : Json :=
  match j with
  | Json.obj fs =>
    match lookupField k fs with
    | some v => v
    | none => d
  | _ => d

/-- Python truthiness of a JSON-decoded value. -/
def Json.truthy : Json → Bool
  | Json.null => false
  | Json.bool b => b
  | Json.num n => n != 0
  | Json.str s => !s.isEmpty
  | Json.arr xs => !xs.isEmpty
  | Json.obj fs => !fs.isEmpty

/-- `str(datetime)` / `isoformat()` of the clock: the textual form of a clock
value. -/
def isoTime (t : Nat) : String := Nat.repr t

/-- `TaskPlan` (pydantic model, ai_coding_agent.py lines 22-29). -/
structure TaskPlan where
  task_id : String
  description : String
  steps : List String
  status : String
  created_at : Nat
  completed_at : Option Nat
deriving DecidableEq

/-- One `{role, content, timestamp}` entry of `conversation_history`
(values are all strings in the source: `Dict[str, str]`). -/
structure ConvEntry where
  role : String
  content : String
  timestamp : String
deriving DecidableEq

/-- The `{count, first_seen}` value of a `learned_patterns` key
(ai_coding_agent.py lines 271-277). -/
structure PatternInfo where
  count : Nat
  first_seen : String
deriving DecidableEq

/-- The step-result dict built by `execute_step`
(ai_coding_agent.py lines 213-218). -/
structure StepResult where
  step : String
  response : String
  timestamp : String
  success : Bool
deriving DecidableEq

/-- One `error_log` entry (ai_coding_agent.py lines 281-285); `errors` is the
raw JSON value taken from the evaluation. -/
structure ErrorRecord where
  timestamp : String
  errors : Json
  context : StepResult

/-- `AgentMemory` (ai_coding_agent.py lines 32-38).  `learned_patterns` is a
Python dict keyed by learning text; dicts preserve insertion order, modelled
as an association list with unique keys. -/
structure AgentMemory where
  conversation_history : List ConvEntry
  task_plans : List TaskPlan
  completed_tasks : List String
  learned_patterns : List (String × PatternInfo)
  error_log : List ErrorRecord

/-- A freshly constructed `AgentMemory()`. -/
def emptyMemory : AgentMemory := ⟨[], [], [], [], []⟩

/-- The whole mutable world of one `CodingAgent`: its memory, the persisted
file (`disk`), the LLM collaborator's scripted responses (`oracle`), the
clock, and the executor invocation log (instrumentation only). -/
structure AgentState where
  memory : AgentMemory
  disk : Option Json
  oracle : List String
  now : Nat
  execLog : List String

/-- One `llm.ainvoke` call: consume the next scripted response. -/
def llmInvoke (st : AgentState) : String × AgentState :=
  match st.oracle with
  | [] => ("", st)
  | r :: rest => (r, { st with oracle := rest })

/-- One `datetime.now()` read; the clock then advances. -/
def tick (st : AgentState) : Nat × AgentState := (st.now, { st with now := st.now + 1 })

/-- Field-wise JSON encoding of the persisted document
(`json.dumps(memory.model_dump(), default=str)`). -/
def encodeConvEntry (e : ConvEntry) : Json :=
  Json.obj [("role", Json.str e.role), ("content", Json.str e.content),
    ("timestamp", Json.str e.timestamp)]

/-- JSON encoding of a `TaskPlan`; the two `datetime` fields are serialized
as clock numbers (see the module comment on timestamps). -/
def encodeTaskPlan (p : TaskPlan) : Json :=
  Json.obj [("task_id", Json.str p.task_id), ("description", Json.str p.description),
    ("steps", Json.arr (p.steps.map Json.str)), ("status", Json.str p.status),
    ("created_at", Json.num (p.created_at : Int)),
    ("completed_at", match p.completed_at with
      | none => Json.null
      | some t => Json.num (t : Int))]

/-- JSON encoding of a step-result dict. -/
def encodeStepResult (r : StepResult) : Json :=
  Json.obj [("step", Json.str r.step), ("response", Json.str r.response),
    ("timestamp", Json.str r.timestamp), ("success", Json.bool r.success)]

/-- JSON encoding of a `learned_patterns` value. -/
def encodePattern (pi : PatternInfo) : Json :=
  Json.obj [("count", Json.num (pi.count : Int)), ("first_seen", Json.str pi.first_seen)]

/-- JSON encoding of an `error_log` entry. -/
def encodeError (e : ErrorRecord) : Json :=
  Json.obj [("timestamp", Json.str e.timestamp), ("errors", e.errors),
    ("context", encodeStepResult e.context)]

/-- The persisted JSON document of an `AgentMemory`
(`AgentMemory.save_to_file`, ai_coding_agent.py lines 40-43). -/
def encodeMemory (m : AgentMemory) : Json :=
  Json.obj [("conversation_history", Json.arr (m.conversation_history.map encodeConvEntry)),
    ("task_plans", Json.arr (m.task_plans.map encodeTaskPlan)),
    ("completed_tasks", Json.arr (m.completed_tasks.map Json.str)),
    ("learned_patterns", Json.obj (m.learned_patterns.map (fun kv => (kv.1, encodePattern kv.2)))),
    ("error_log", Json.arr (m.error_log.map encodeError))]

/-- `save_to_file`: what gets written to the backing file. -/
def save_to_file (m : AgentMemory) : Json := encodeMemory m

/-- Writing the current memory to the backing file. -/
def saveMemory (st : AgentState) : AgentState := { st with disk := some (encodeMemory st.memory) }

/-- pydantic validation of a JSON value against `str`. -/
def asStr : Json → Option String
  | Json.str s => some s
  | _ => none

/-- pydantic validation of a JSON value against `bool`. -/
def asBool : Json → Option Bool
  | Json.bool b => some b
  | _ => none

/-- pydantic validation of a JSON number as a clock value. -/
def asNat : Json → Option Nat
  | Json.num n => if n < 0 then none else some n.toNat
  | _ => none

/-- Element-wise decoding of a list (pydantic `List[...]` validation). -/
def decodeList (f : Json → Option α) : List Json → Option (List α)
  | [] => some []
  | j :: js =>
    match f j with
    | some a =>
      match decodeList f js with
      | some as => some (a :: as)
      | none => none
    | none => none

/-- pydantic `List[...]` validation of a JSON value. -/
def decodeWithArr (f : Json → Option α) : Json → Option (List α)
  | Json.arr xs => decodeList f xs
  | _ => none

/-- Decoding one conversation entry against its maintained
`{role, content, timestamp}` shape. -/
def decodeConvEntry (j : Json) : Option ConvEntry :=
  match j with
  | Json.obj fs => do
    let role ← asStr (← lookupField "role" fs)
    let content ← asStr (← lookupField "content" fs)
    let ts ← asStr (← lookupField "timestamp" fs)
    some ⟨role, content, ts⟩
  | _ => none

/-- pydantic validation `TaskPlan(**data)` (ai_coding_agent.py line 170):
`task_id`, `description` and `steps` are required, `status` defaults to
"pending", `created_at` defaults to `datetime.now()` (the `now` argument),
`completed_at` defaults to `None`; unknown keys are ignored. -/
def decodeTaskPlan (now : Nat) (j : Json) : Option TaskPlan :=
  match j with
  | Json.obj fs => do
    let tid ← asStr (← lookupField "task_id" fs)
    let desc ← asStr (← lookupField "description" fs)
    let steps ← decodeWithArr asStr (← lookupField "steps" fs)
    let status ← match lookupField "status" fs with
      | none => some "pending"
      | some v => asStr v
    let created ← match lookupField "created_at" fs with
      | none => some now
      | some v => asNat v
    let completed ← match lookupField "completed_at" fs with
      | none => some Option.none
      | some Json.null => some Option.none
      | some v => (asNat v).map Option.some
    some ⟨tid, desc, steps, status, created, completed⟩
  | _ => none

/-- Decoding one step-result dict. -/
def decodeStepResult (j : Json) : Option StepResult :=
  match j with
  | Json.obj fs => do
    let step ← asStr (← lookupField "step" fs)
    let resp ← asStr (← lookupField "response" fs)
    let ts ← asStr (← lookupField "timestamp" fs)
    let ok ← asBool (← lookupField "success" fs)
    some ⟨step, resp, ts, ok⟩
  | _ => none

/-- Decoding one `learned_patterns` value against its maintained
`{count, first_seen}` shape. -/
def decodePattern (j : Json) : Option PatternInfo :=
  match j with
  | Json.obj fs => do
    let c ← asNat (← lookupField "count" fs)
    let fs' ← asStr (← lookupField "first_seen" fs)
    some ⟨c, fs'⟩
  | _ => none

/-- Decoding the `learned_patterns` mapping. -/
def decodePairsLP : List (String × Json) → Option (List (String × PatternInfo))
  | [] => some []
  | (k, v) :: rest =>
    match decodePattern v with
    | some pi =>
      match decodePairsLP rest with
      | some ps => some ((k, pi) :: ps)
      | none => none
    | none => none

/-- Decoding one `error_log` entry; its `errors` field is untyped
(`Dict[str, Any]`) and passes through unchanged. -/
def decodeError (j : Json) : Option ErrorRecord :=
  match j with
  | Json.obj fs => do
    let ts ← asStr (← lookupField "timestamp" fs)
    let errs ← lookupField "errors" fs
    let ctx ← decodeStepResult (← lookupField "context" fs)
    some ⟨ts, errs, ctx⟩
  | _ => none

/-- pydantic validation `AgentMemory(**json.loads(data))`: every field has a
default, so missing keys fall back to empty collections; a field present with
the wrong shape fails validation. -/
def decodeMemory (now : Nat) (j : Json) : Option AgentMemory :=
  match j with
  | Json.obj fs => do
    let ch ← match lookupField "conversation_history" fs with
      | none => some []
      | some v => decodeWithArr decodeConvEntry v
    let tp ← match lookupField "task_plans" fs with
      | none => some []
      | some v => decodeWithArr (decodeTaskPlan now) v
    let ct ← match lookupField "completed_tasks" fs with
      | none => some []
      | some v => decodeWithArr asStr v
    let lp ← match lookupField "learned_patterns" fs with
      | none => some []
      | some (Json.obj ps) => decodePairsLP ps
      | some _ => none
    let el ← match lookupField "error_log" fs with
      | none => some []
      | some v => decodeWithArr decodeError v
    some ⟨ch, tp, ct, lp, el⟩
  | _ => none

/-- The failure `AgentMemory.load_from_file` raises when the persisted data
exists but does not decode (a `json.JSONDecodeError` or pydantic
`ValidationError` in the source; the spec names it `CorruptStateError`). -/
inductive LoadError where
  | corrupt : LoadError
deriving DecidableEq

/-- `AgentMemory.load_from_file` (ai_coding_agent.py lines 45-52): a missing
file yields a fresh `AgentMemory()`; an existing file is decoded, and decode
failure is an error, not a silent reset.  `now` supplies pydantic's
`created_at` default for plans lacking the field. -/
def load_from_file (content : Option Json) (now : Nat) : Except LoadError AgentMemory :=
  match content with
  | none => Except.ok emptyMemory
  | some j =>
    match decodeMemory now j with
    | some m => Except.ok m
    | none => Except.error LoadError.corrupt

/-- Appending a plan to `memory.task_plans`. -/
def pushPlan (st : AgentState) (p : TaskPlan) : AgentState :=
  { st with memory := { st.memory with task_plans := st.memory.task_plans ++ [p] } }

/-- The fallback of `plan_task`'s `except` clause (ai_coding_agent.py lines
174-182): a single-step plan whose one step is the raw response text and
whose description is the request truncated to 100 characters; it is appended
to memory but not persisted. -/
def planFallback (st : AgentState) (user_request resp : String) : Option TaskPlan × AgentState :=
  let (t1, st1) := tick st
  let (t2, st2) := tick st1
  let p : TaskPlan := ⟨"task_" ++ isoTime t1, user_request.take 100, [resp], "pending", t2, none⟩
  (some p, pushPlan st2 p)

/-- `CodingAgent.plan_task` (ai_coding_agent.py lines 138-182).  Note the
source's control flow: when the brace search finds no match, the `if` body is
skipped, no exception is raised, and the function falls off the end of the
`try` — returning Python `None` (here `(none, ·)`) with no memory change. -/
def plan_task (st : AgentState) (user_request : String) : Option TaskPlan × AgentState :=
  let (resp, st1) := llmInvoke st
  match extractBraces resp with
  | none => (none, st1)
  | some jstr =>
    match jsonParse jstr with
    | none => planFallback st1 user_request resp
    | some jval =>
      let (t, st2) := tick st1
      match decodeTaskPlan t jval with
      | none => planFallback st2 user_request resp
      | some p => (some p, saveMemory (pushPlan st2 p))

/-- One entry of the orchestrator's `context` dict
(`context["step_i"] = {description, result, evaluation}`). -/
structure CtxEntry where
  description : String
  result : StepResult
  evaluation : Json

/-- The orchestrator's `context`: the request plus the per-step entries keyed
by 1-based step index. -/
structure Ctx where
  request : String
  entries : List (Nat × CtxEntry)

/-- Python dict assignment `context[k] = e` (overwrite in place, else append). -/
def ctxInsert (c : Ctx) (k : Nat) (e : CtxEntry) : Ctx :=
  if c.entries.any (fun p => p.1 == k) then
    ⟨c.request, c.entries.map (fun p => if p.1 == k then (k, e) else p)⟩
  else ⟨c.request, c.entries ++ [(k, e)]⟩

/-- `CodingAgent.execute_step` (ai_coding_agent.py lines 184-227): build the
prompt from the step, the context and the last 5 history entries (consumed by
the collaborator, see module comment), invoke the LLM once, return a
step-result with `success` unconditionally `True`, and append one assistant
entry to `conversation_history`. -/
def execute_step (st : AgentState) (step : String) (_context : Ctx) : StepResult × AgentState :=
  let (resp, st1) := llmInvoke st
  let (t1, st2) := tick st1
  let result : StepResult := ⟨step, resp, isoTime t1, true⟩
  let (t2, st3) := tick st2
  let st4 : AgentState :=
    { st3 with
      memory := { st3.memory with
        conversation_history := st3.memory.conversation_history ++ [⟨"assistant", resp, isoTime t2⟩] },
      execLog := st3.execLog ++ [step] }
  (result, st4)

/-- The exception text of the decode failure in `evaluate_result`'s `except`
clause (`str(e)`; the concrete message is environment-dependent and abstracted
to a fixed string). -/
def exceptionText : String := "Expecting value: line 1 column 1 (char 0)"

/-- The default evaluation returned when decoding the evaluator's response
raises (ai_coding_agent.py lines 289-295). -/
def defaultEvaluation : Json :=
  Json.obj [("success", Json.bool false), ("errors", Json.arr [Json.str exceptionText]),
    ("next_action", Json.str "retry"), ("learnings", Json.arr [])]

/-- The learning strings of an evaluation: the loop over
`evaluation["learnings"]` runs only when the value is truthy
(ai_coding_agent.py lines 269-270); learnings are the strings of that list
(the documented schema: `learnings: [string]`). -/
def learningKeys : Json → List String
  | Json.arr xs => xs.filterMap (fun x => match x with | Json.str s => some s | _ => none)
  | _ => []

/-- The learnings the Outcome Evaluator emits from a parsed evaluation. -/
def emittedLearnings (ev : Json) : List String :=
  if (Json.getD ev "learnings" Json.null).truthy then
    learningKeys (Json.getD ev "learnings" Json.null)
  else []

/-- `learned_patterns` membership test (`learning in self.memory.learned_patterns`). -/
def lookupLP (k : String) : List (String × PatternInfo) → Option PatternInfo
  | [] => none
  | p :: rest => if p.1 = k then some p.2 else lookupLP k rest

/-- `learned_patterns[learning]["count"] += 1` on an existing key. -/
def bumpLP (k : String) (l : List (String × PatternInfo)) : List (String × PatternInfo) :=
  l.map (fun p => if p.1 = k then (p.1, ⟨p.2.count + 1, p.2.first_seen⟩) else p)

/-- The per-learning upsert (ai_coding_agent.py lines 270-277): a new key is
inserted with count 1 and `first_seen = now`; an existing key has its count
incremented and `first_seen` untouched. -/
def applyLearning (st : AgentState) (k : String) : AgentState :=
  match lookupLP k st.memory.learned_patterns with
  | some _ =>
    { st with memory := { st.memory with learned_patterns := bumpLP k st.memory.learned_patterns } }
  | none =>
    let (t, st1) := tick st
    { st1 with memory := { st1.memory with
        learned_patterns := st1.memory.learned_patterns ++ [(k, ⟨1, isoTime t⟩)] } }

/-- The learnings loop of `evaluate_result`. -/
def applyLearnings (st : AgentState) (ks : List String) : AgentState :=
  ks.foldl applyLearning st

/-- Appending one `error_log` record (ai_coding_agent.py lines 280-285). -/
def pushError (st : AgentState) (ev : Json) (result : StepResult) : AgentState :=
  let (t, st1) := tick st
  { st1 with memory := { st1.memory with
      error_log := st1.memory.error_log ++ [⟨isoTime t, Json.getD ev "errors" Json.null, result⟩] } }

/-- The memory updates of `evaluate_result`'s successful-parse path: store
learnings, log errors when the `errors` value is truthy, persist memory. -/
def applyEvalEffects (st : AgentState) (ev : Json) (result : StepResult) : AgentState :=
  let st1 := applyLearnings st (emittedLearnings ev)
  let st2 := if (Json.getD ev "errors" Json.null).truthy then pushError st1 ev result else st1
  saveMemory st2

/-- `CodingAgent.evaluate_result` (ai_coding_agent.py lines 229-295).  As in
`plan_task`, a response with no brace-delimited text skips the `if` body and
falls off the `try`, returning Python `None` with no memory change; a
brace-delimited text that fails `json.loads` raises and returns the default
evaluation; a parsed evaluation triggers the memory effects and is returned
as the raw dict. -/
def evaluate_result (st : AgentState) (result : StepResult) : Option Json × AgentState :=
  let (resp, st1) := llmInvoke st
  match extractBraces resp with
  | none => (none, st1)
  | some jstr =>
    match jsonParse jstr with
    | none => (some defaultEvaluation, st1)
    | some ev => (some ev, applyEvalEffects st1 ev result)

/-- The return value of `evaluate_result` as a function of the scripted
response alone (its state effects depend on the state as well). -/
def evalOutcome (resp : String) : Option Json :=
  match extractBraces resp with
  | none => none
  | some jstr =>
    match jsonParse jstr with
    | none => some defaultEvaluation
    | some ev => some ev

/-- The Python f-string rendering of the errors list inside the fix prompt
(flattened to the error strings; consumed only by the collaborator). -/
def errorsText : Json → String
  | Json.arr xs => String.intercalate ", " (xs.map (fun j => match j with | Json.str s => s | _ => ""))
  | _ => ""

/-- The fix prompt built for a failed step (ai_coding_agent.py lines 341-345). -/
def fixPromptFor (ev : Json) (step : String) : String :=
  "The previous step failed with errors: " ++ errorsText (Json.getD ev "errors" (Json.arr []))
    ++ " Original step: " ++ step ++ " Please fix the issue and retry."

/-- The return dict of `execute_task` (ai_coding_agent.py lines 365-370). -/
structure TaskResult where
  plan : TaskPlan
  results : List StepResult
  success : Bool
  timestamp : String

/-- The orchestrator's per-step loop (ai_coding_agent.py lines 319-355):
execute, evaluate, record the entry in `context`, and on evaluated failure
run exactly one fix attempt whose result and evaluation are recorded in
`results` but do not replace the step's `context` entry.  A Python `None`
evaluation crashes the loop on `evaluation.get` (`(none, ·)` here), aborting
the task. -/
def runSteps : AgentState → Ctx → List StepResult → Nat → List String →
    Option (Ctx × List StepResult) × AgentState
  | st, ctx, acc, _, [] => (some (ctx, acc), st)
  | st, ctx, acc, i, step :: rest =>
    let es := execute_step st step ctx
    let acc1 := acc ++ [es.1]
    let ev1 := evaluate_result es.2 es.1
    match ev1.1 with
    | none => (none, ev1.2)
    | some ev =>
      let ctx1 := ctxInsert ctx (i + 1) ⟨step, es.1, ev⟩
      if (Json.getD ev "success" (Json.bool false)).truthy then
        runSteps ev1.2 ctx1 acc1 (i + 1) rest
      else
        let es2 := execute_step ev1.2 (fixPromptFor ev step) ctx1
        let acc2 := acc1 ++ [es2.1]
        let ev2 := evaluate_result es2.2 es2.1
        match ev2.1 with
        | none => (none, ev2.2)
        | some _ => runSteps ev2.2 ctx1 acc2 (i + 1) rest

/-- Appending the user's request to `conversation_history`
(ai_coding_agent.py lines 302-306). -/
def pushUserConv (st : AgentState) (req : String) : AgentState :=
  let (t, st1) := tick st
  { st1 with memory := { st1.memory with
      conversation_history := st1.memory.conversation_history ++ [⟨"user", req, isoTime t⟩] } }

/-- `plan.status = "in_progress"`: the plan object just appended by
`plan_task` is aliased by the list's last element, so the in-place mutation
updates that element. -/
def startPlan (st : AgentState) (plan : TaskPlan) : AgentState :=
  { st with memory := { st.memory with
      task_plans := st.memory.task_plans.set (st.memory.task_plans.length - 1) plan } }

/-- The completion epilogue of `execute_task` (ai_coding_agent.py lines
357-370): mark the (aliased) plan completed, stamp `completed_at`, append its
`task_id` to `completed_tasks`, persist, and return
`{plan, results, success: True, timestamp}`. -/
def finishTask (st : AgentState) (plan : TaskPlan) (results : List StepResult) :
    Option TaskResult × AgentState :=
  let (t1, st1) := tick st
  let donePlan : TaskPlan := { plan with status := "completed", completed_at := some t1 }
  let st2 : AgentState := { st1 with memory := { st1.memory with
      task_plans := st1.memory.task_plans.set (st1.memory.task_plans.length - 1) donePlan } }
  let st3 : AgentState := { st2 with memory := { st2.memory with
      completed_tasks := st2.memory.completed_tasks ++ [donePlan.task_id] } }
  let st4 := saveMemory st3
  let (t2, st5) := tick st4
  (some ⟨donePlan, results, true, isoTime t2⟩, st5)

/-- `CodingAgent.execute_task` (ai_coding_agent.py lines 297-370): record the
request, plan, run the step loop, then mark the plan completed and report
task-level success unconditionally.  A `None` from `plan_task` or from an
evaluation crashes on attribute access (`(none, ·)`). -/
def execute_task (st : AgentState) (req : String) : Option TaskResult × AgentState :=
  let st0 := pushUserConv st req
  let pt := plan_task st0 req
  match pt.1 with
  | none => (none, pt.2)
  | some plan =>
    let plan1 := { plan with status := "in_progress" }
    let st2 := startPlan pt.2 plan1
    let rs := runSteps st2 ⟨req, []⟩ [] 0 plan1.steps
    match rs.1 with
    | none => (none, rs.2)
    | some pr => finishTask rs.2 plan1 pr.2

/-- The `AgentMemory` states reachable from a fresh memory through the
documented operations — plan creation, step execution, evaluation, and full
task execution — under any collaborator behaviour, any clock, any backing
file and any invocation log. -/
inductive Reachable : AgentMemory → Prop where
  | init : Reachable emptyMemory
  | plan (m : AgentMemory) (d : Option Json) (o : List String) (n : Nat) (l : List String)
      (req : String) : Reachable m → Reachable (plan_task ⟨m, d, o, n, l⟩ req).2.memory
  | step (m : AgentMemory) (d : Option Json) (o : List String) (n : Nat) (l : List String)
      (s : String) (c : Ctx) : Reachable m → Reachable (execute_step ⟨m, d, o, n, l⟩ s c).2.memory
  | eval (m : AgentMemory) (d : Option Json) (o : List String) (n : Nat) (l : List String)
      (r : StepResult) : Reachable m → Reachable (evaluate_result ⟨m, d, o, n, l⟩ r).2.memory
  | task (m : AgentMemory) (d : Option Json) (o : List String) (n : Nat) (l : List String)
      (req : String) : Reachable m → Reachable (execute_task ⟨m, d, o, n, l⟩ req).2.memory

/-- How many plans in `task_plans` have the given `task_id` and status
"completed". -/
def planCompletedCount (m : AgentMemory) (id : String) : Nat :=
  m.task_plans.countP (fun p => p.task_id == id && p.status == "completed")

/-- Planner response fixtures used in the concrete runs below. -/
def c1PlanResp : String :=
  "\x7b\"task_id\": \"t1\", \"description\": \"add two numbers\", \"steps\": [\"write add\"]\x7d"

def c1EvalOk : String := "\x7b\"success\": true\x7d"

def c1Script : List String := [c1PlanResp, "def add(a, b): return a + b", c1EvalOk]

def c2NoJsonResp : String := "I cannot make a plan."

def c2BadJsonResp : String := "here: \x7bnot json\x7d done"

def c2FallbackPlan : TaskPlan :=
  ⟨"task_5", "build a calculator", [c2BadJsonResp], "pending", 6, none⟩

def c3StepResult : StepResult := ⟨"write add", "done", "0", true⟩

def c4PlanResp : String :=
  "\x7b\"task_id\": \"t4\", \"description\": \"two steps\", \"steps\": [\"s1\", \"s2\"]\x7d"

def c4EvalFail : String := "\x7b\"success\": false\x7d"

def c4EvalOk : String := "\x7b\"success\": true\x7d"

def c4FailEv : Json := Json.obj [("success", Json.bool false)]

def c4OkEv : Json := Json.obj [("success", Json.bool true)]

def c4AbortScript : List String :=
  [c4PlanResp, "attempt 1", c4EvalFail, "attempt 2", "looks fine now"]

def c4WitnessState : AgentState :=
  ⟨emptyMemory, none, ["attempt 1", c4EvalFail, "attempt 2", c4EvalOk], 3, []⟩

def c5LearnResp : String := "\x7b\"success\": true, \"learnings\": [\"use caching\"]\x7d"

def c5LearnEv : Json :=
  Json.obj [("success", Json.bool true), ("learnings", Json.arr [Json.str "use caching"])]

def c5State : AgentState := ⟨emptyMemory, none, [c5LearnResp, c5LearnResp], 7, []⟩

def c5Res : StepResult := ⟨"s", "resp", "0", true⟩

def c8PlanResp : String :=
  "\x7b\"task_id\": \"t\", \"description\": \"d\", \"steps\": [\"s\"]\x7d"

def c8Script : List String :=
  [c8PlanResp, "done step", "\x7b\"success\": true\x7d",
   c8PlanResp, "done step", "\x7b\"success\": true\x7d"]

def c8StateOne : AgentState := (execute_task ⟨emptyMemory, none, c8Script, 0, []⟩ "r").2

def c8MemTwo : AgentMemory := (execute_task c8StateOne "r").2.memory

/-- The §3 invariant on a memory: no more completed tasks than plans, and
every completed task id has a completed plan bearing it. -/
def memInv (m : AgentMemory) : Prop :=
  m.completed_tasks.length ≤ m.task_plans.length ∧
  ∀ id ∈ m.completed_tasks, ∃ p, p ∈ m.task_plans ∧ p.task_id = id ∧ p.status = "completed"

theorem execute_step_eq (st : AgentState) (step : String) (c : Ctx) :
    execute_step st step c =
      (⟨step, st.oracle.headD "", isoTime st.now, true⟩,
       ⟨{ st.memory with conversation_history :=
            st.memory.conversation_history ++ [⟨"assistant", st.oracle.headD "", isoTime (st.now + 1)⟩] },
        st.disk, st.oracle.tail, st.now + 2, st.execLog ++ [step]⟩) := by
  rcases st with ⟨m, d, o, n, lg⟩
  cases o <;> rfl

theorem evaluate_result_noJson (st : AgentState) (r : StepResult)
    (h : extractBraces (st.oracle.headD "") = none) :
    evaluate_result st r = (none, { st with oracle := st.oracle.tail }) := by
  rcases st with ⟨m, d, o, n, lg⟩
  cases o with
  | nil => simp_all [evaluate_result, llmInvoke]
  | cons a rest => simp_all [evaluate_result, llmInvoke]

theorem evaluate_result_default (st : AgentState) (r : StepResult) (s : String)
    (h1 : extractBraces (st.oracle.headD "") = some s) (h2 : jsonParse s = none) :
    evaluate_result st r = (some defaultEvaluation, { st with oracle := st.oracle.tail }) := by
  rcases st with ⟨m, d, o, n, lg⟩
  cases o with
  | nil => simp_all [evaluate_result, llmInvoke]
  | cons a rest => simp_all [evaluate_result, llmInvoke]

theorem evaluate_result_parsed (st : AgentState) (r : StepResult) (s : String) (ev : Json)
    (h1 : extractBraces (st.oracle.headD "") = some s) (h2 : jsonParse s = some ev) :
    evaluate_result st r = (some ev, applyEvalEffects { st with oracle := st.oracle.tail } ev r) := by
  rcases st with ⟨m, d, o, n, lg⟩
  cases o with
  | nil => simp_all [evaluate_result, llmInvoke]
  | cons a rest => simp_all [evaluate_result, llmInvoke]

theorem plan_task_noJson (st : AgentState) (req : String)
    (h : extractBraces (st.oracle.headD "") = none) :
    plan_task st req = (none, { st with oracle := st.oracle.tail }) := by
  rcases st with ⟨m, d, o, n, lg⟩
  cases o with
  | nil => simp_all [plan_task, llmInvoke]
  | cons a rest => simp_all [plan_task, llmInvoke]

theorem plan_task_fbParse (st : AgentState) (req : String) (s : String)
    (h1 : extractBraces (st.oracle.headD "") = some s) (h2 : jsonParse s = none) :
    plan_task st req = planFallback { st with oracle := st.oracle.tail } req (st.oracle.headD "") := by
  rcases st with ⟨m, d, o, n, lg⟩
  cases o with
  | nil => simp_all [plan_task, llmInvoke]
  | cons a rest => simp_all [plan_task, llmInvoke]

theorem plan_task_fbValid (st : AgentState) (req : String) (s : String) (j : Json)
    (h1 : extractBraces (st.oracle.headD "") = some s) (h2 : jsonParse s = some j)
    (h3 : decodeTaskPlan st.now j = none) :
    plan_task st req
      = planFallback { st with oracle := st.oracle.tail, now := st.now + 1 } req (st.oracle.headD "") := by
  rcases st with ⟨m, d, o, n, lg⟩
  cases o with
  | nil => simp_all [plan_task, llmInvoke, tick]
  | cons a rest => simp_all [plan_task, llmInvoke, tick]

theorem plan_task_ok (st : AgentState) (req : String) (s : String) (j : Json) (p : TaskPlan)
    (h1 : extractBraces (st.oracle.headD "") = some s) (h2 : jsonParse s = some j)
    (h3 : decodeTaskPlan st.now j = some p) :
    plan_task st req
      = (some p, saveMemory (pushPlan { st with oracle := st.oracle.tail, now := st.now + 1 } p)) := by
  rcases st with ⟨m, d, o, n, lg⟩
  cases o with
  | nil => simp_all [plan_task, llmInvoke, tick]
  | cons a rest => simp_all [plan_task, llmInvoke, tick]

/-- `plan_task`'s memory effect. -/
theorem plan_task_mem (st : AgentState) (req : String) :
    (∀ st', plan_task st req = (none, st') → st'.memory = st.memory) ∧
    (∀ p st', plan_task st req = (some p, st') →
      st'.memory = { st.memory with task_plans := st.memory.task_plans ++ [p] }) := by
  rcases h1 : extractBraces (st.oracle.headD "") with _ | s
  · rw [plan_task_noJson st req h1]
    constructor
    · intro st' h
      simp only [Prod.mk.injEq] at h
      rw [← h.2]
    · intro p st' h
      simp only [Prod.mk.injEq] at h
      exact absurd h.1 (by simp)
  · rcases h2 : jsonParse s with _ | j
    · rw [plan_task_fbParse st req s h1 h2]
      constructor
      · intro st' h
        simp only [planFallback, tick, pushPlan, Prod.mk.injEq] at h
        exact absurd h.1 (by simp)
      · intro p st' h
        simp only [planFallback, tick, pushPlan, Prod.mk.injEq, Option.some.injEq] at h
        rcases h with ⟨h3, h4⟩
        subst h3
        rw [← h4]
    · rcases h3 : decodeTaskPlan st.now j with _ | q
      · rw [plan_task_fbValid st req s j h1 h2 h3]
        constructor
        · intro st' h
          simp only [planFallback, tick, pushPlan, Prod.mk.injEq] at h
          exact absurd h.1 (by simp)
        · intro p st' h
          simp only [planFallback, tick, pushPlan, Prod.mk.injEq, Option.some.injEq] at h
          rcases h with ⟨h4, h5⟩
          subst h4
          rw [← h5]
      · rw [plan_task_ok st req s j q h1 h2 h3]
        constructor
        · intro st' h
          simp only [Prod.mk.injEq] at h
          exact absurd h.1 (by simp)
        · intro p st' h
          simp only [saveMemory, pushPlan, Prod.mk.injEq, Option.some.injEq] at h
          rcases h with ⟨h4, h5⟩
          subst h4
          rw [← h5]

/-- The learnings upsert touches only `learned_patterns` (and the clock). -/
theorem applyLearning_frame (st : AgentState) (k : String) :
    (applyLearning st k).memory.task_plans = st.memory.task_plans ∧
    (applyLearning st k).memory.completed_tasks = st.memory.completed_tasks ∧
    (applyLearning st k).memory.conversation_history = st.memory.conversation_history ∧
    (applyLearning st k).memory.error_log = st.memory.error_log ∧
    (applyLearning st k).oracle = st.oracle ∧
    (applyLearning st k).execLog = st.execLog := by
  cases h : lookupLP k st.memory.learned_patterns <;>
    simp [applyLearning, h, tick]

theorem applyLearnings_frame (ks : List String) : ∀ st : AgentState,
    (applyLearnings st ks).memory.task_plans = st.memory.task_plans ∧
    (applyLearnings st ks).memory.completed_tasks = st.memory.completed_tasks ∧
    (applyLearnings st ks).memory.conversation_history = st.memory.conversation_history ∧
    (applyLearnings st ks).memory.error_log = st.memory.error_log ∧
    (applyLearnings st ks).oracle = st.oracle ∧
    (applyLearnings st ks).execLog = st.execLog := by
  induction ks with
  | nil => intro st; simp [applyLearnings]
  | cons k ks ih =>
    intro st
    have h1 := applyLearning_frame st k
    have h2 := ih (applyLearning st k)
    simp only [applyLearnings, List.foldl] at h2 ⊢
    exact ⟨h2.1.trans h1.1, h2.2.1.trans h1.2.1, h2.2.2.1.trans h1.2.2.1,
      h2.2.2.2.1.trans h1.2.2.2.1, h2.2.2.2.2.1.trans h1.2.2.2.2.1,
      h2.2.2.2.2.2.trans h1.2.2.2.2.2⟩

/-- The evaluator's memory effects never touch plans, completed tasks or the
conversation, and leave the oracle alone. -/
theorem applyEvalEffects_frame (st : AgentState) (ev : Json) (r : StepResult) :
    (applyEvalEffects st ev r).memory.task_plans = st.memory.task_plans ∧
    (applyEvalEffects st ev r).memory.completed_tasks = st.memory.completed_tasks ∧
    (applyEvalEffects st ev r).memory.conversation_history = st.memory.conversation_history ∧
    (applyEvalEffects st ev r).oracle = st.oracle ∧
    (applyEvalEffects st ev r).execLog = st.execLog := by
  have h1 := applyLearnings_frame (emittedLearnings ev) st
  by_cases hb : (Json.getD ev "errors" Json.null).truthy
  · simp only [applyEvalEffects, hb, if_true, saveMemory, pushError, tick]
    exact ⟨h1.1, h1.2.1, h1.2.2.1, h1.2.2.2.2.1, h1.2.2.2.2.2⟩
  · simp only [applyEvalEffects, hb, if_false, saveMemory]
    exact ⟨h1.1, h1.2.1, h1.2.2.1, h1.2.2.2.2.1, h1.2.2.2.2.2⟩

/-- One evaluator call preserves plans, completed tasks and the conversation,
and consumes exactly one oracle entry. -/
theorem evaluate_result_frame (st : AgentState) (r : StepResult) :
    (evaluate_result st r).2.memory.task_plans = st.memory.task_plans ∧
    (evaluate_result st r).2.memory.completed_tasks = st.memory.completed_tasks ∧
    (evaluate_result st r).2.memory.conversation_history = st.memory.conversation_history ∧
    (evaluate_result st r).2.oracle = st.oracle.tail ∧
    (evaluate_result st r).2.execLog = st.execLog := by
  rcases h1 : extractBraces (st.oracle.headD "") with _ | s
  · rw [evaluate_result_noJson st r h1]
    exact ⟨rfl, rfl, rfl, rfl, rfl⟩
  · rcases h2 : jsonParse s with _ | ev
    · rw [evaluate_result_default st r s h1 h2]
      exact ⟨rfl, rfl, rfl, rfl, rfl⟩
    · rw [evaluate_result_parsed st r s ev h1 h2]
      exact applyEvalEffects_frame { st with oracle := st.oracle.tail } ev r

/-- The step loop preserves plans and completed tasks. -/
theorem runSteps_frame (steps : List String) : ∀ (st : AgentState) (ctx : Ctx)
    (acc : List StepResult) (i : Nat),
    (runSteps st ctx acc i steps).2.memory.task_plans = st.memory.task_plans ∧
    (runSteps st ctx acc i steps).2.memory.completed_tasks = st.memory.completed_tasks := by
  induction steps with
  | nil => intro st ctx acc i; exact ⟨rfl, rfl⟩
  | cons step rest ih =>
    intro st ctx acc i
    rw [runSteps]
    have hes := execute_step_eq st step ctx
    have hf1 : (execute_step st step ctx).2.memory.task_plans = st.memory.task_plans ∧
        (execute_step st step ctx).2.memory.completed_tasks = st.memory.completed_tasks := by
      rw [hes]; exact ⟨rfl, rfl⟩
    have hf2 := evaluate_result_frame (execute_step st step ctx).2 (execute_step st step ctx).1
    rcases hev : (evaluate_result (execute_step st step ctx).2 (execute_step st step ctx).1).1
      with _ | ev
    · simp only [hev]
      exact ⟨hf2.1.trans hf1.1, hf2.2.1.trans hf1.2⟩
    · simp only [hev]
      by_cases hb : (Json.getD ev "success" (Json.bool false)).truthy
      · simp only [hb, if_true]
        have h3 := ih (evaluate_result (execute_step st step ctx).2 (execute_step st step ctx).1).2
          (ctxInsert ctx (i + 1) ⟨step, (execute_step st step ctx).1, ev⟩)
          (acc ++ [(execute_step st step ctx).1]) (i + 1)
        exact ⟨h3.1.trans (hf2.1.trans hf1.1), h3.2.trans (hf2.2.1.trans hf1.2)⟩
      · simp only [hb, if_false]
        set stA := (evaluate_result (execute_step st step ctx).2 (execute_step st step ctx).1).2
          with hstA
        have hf3 : (execute_step stA (fixPromptFor ev step)
              (ctxInsert ctx (i + 1) ⟨step, (execute_step st step ctx).1, ev⟩)).2.memory.task_plans
              = stA.memory.task_plans ∧
            (execute_step stA (fixPromptFor ev step)
              (ctxInsert ctx (i + 1) ⟨step, (execute_step st step ctx).1, ev⟩)).2.memory.completed_tasks
              = stA.memory.completed_tasks := by
          rw [execute_step_eq]; exact ⟨rfl, rfl⟩
        set stB := (execute_step stA (fixPromptFor ev step)
          (ctxInsert ctx (i + 1) ⟨step, (execute_step st step ctx).1, ev⟩)).2 with hstB
        have hf4 := evaluate_result_frame stB (execute_step stA (fixPromptFor ev step)
          (ctxInsert ctx (i + 1) ⟨step, (execute_step st step ctx).1, ev⟩)).1
        rcases hev2 : (evaluate_result stB (execute_step stA (fixPromptFor ev step)
            (ctxInsert ctx (i + 1) ⟨step, (execute_step st step ctx).1, ev⟩)).1).1 with _ | ev2
        · simp only [hev2]
          exact ⟨hf4.1.trans (hf3.1.trans (hf2.1.trans hf1.1)),
            hf4.2.1.trans (hf3.2.trans (hf2.2.1.trans hf1.2))⟩
        · simp only [hev2]
          have h5 := ih (evaluate_result stB (execute_step stA (fixPromptFor ev step)
              (ctxInsert ctx (i + 1) ⟨step, (execute_step st step ctx).1, ev⟩)).1).2
            (ctxInsert ctx (i + 1) ⟨step, (execute_step st step ctx).1, ev⟩)
            (acc ++ [(execute_step st step ctx).1] ++ [(execute_step stA (fixPromptFor ev step)
              (ctxInsert ctx (i + 1) ⟨step, (execute_step st step ctx).1, ev⟩)).1]) (i + 1)
          exact ⟨h5.1.trans (hf4.1.trans (hf3.1.trans (hf2.1.trans hf1.1))),
            h5.2.trans (hf4.2.1.trans (hf3.2.trans (hf2.2.1.trans hf1.2)))⟩

theorem setLastAux {α : Type} (l : List α) (a b : α) :
    (l ++ [a]).set l.length b = l ++ [b] := by
  induction l with
  | nil => rfl
  | cons x xs ih => simp [List.set, ih]

/-- Closed form of the completion epilogue. -/
theorem finishTask_eq (st : AgentState) (plan : TaskPlan) (results : List StepResult) :
    finishTask st plan results =
      (some ⟨{ plan with status := "completed", completed_at := some st.now }, results, true,
          isoTime (st.now + 1)⟩,
       ⟨{ st.memory with
            task_plans := st.memory.task_plans.set (st.memory.task_plans.length - 1)
              { plan with status := "completed", completed_at := some st.now },
            completed_tasks := st.memory.completed_tasks ++ [plan.task_id] },
        some (encodeMemory { st.memory with
            task_plans := st.memory.task_plans.set (st.memory.task_plans.length - 1)
              { plan with status := "completed", completed_at := some st.now },
            completed_tasks := st.memory.completed_tasks ++ [plan.task_id] }),
        st.oracle, st.now + 2, st.execLog⟩) := rfl


theorem lookupLP_append_of_none (k : String) (pi : PatternInfo) :
    ∀ l : List (String × PatternInfo), lookupLP k l = none →
      lookupLP k (l ++ [(k, pi)]) = some pi := by
  intro l
  induction l with
  | nil => intro _; simp [lookupLP]
  | cons p rest ih =>
    intro h
    by_cases hk : p.1 = k
    · simp [lookupLP, hk] at h
    · simp only [lookupLP, hk, if_false, List.cons_append] at h ⊢
      exact ih h

theorem lookupLP_bump (k : String) (pi : PatternInfo) :
    ∀ l : List (String × PatternInfo), lookupLP k l = some pi →
      lookupLP k (bumpLP k l) = some ⟨pi.count + 1, pi.first_seen⟩ := by
  intro l
  induction l with
  | nil => intro h; simp [lookupLP] at h
  | cons p rest ih =>
    intro h
    by_cases hk : p.1 = k
    · simp only [lookupLP, hk, if_true] at h
      simp only [bumpLP, List.map, hk, if_true, lookupLP]
      simp only [Option.some.injEq] at h
      rw [h]
    · simp only [lookupLP, hk, if_false] at h
      simp only [bumpLP, List.map, hk, if_false, lookupLP]
      exact ih h

theorem applyLearning_new (st : AgentState) (k : String)
    (h : lookupLP k st.memory.learned_patterns = none) :
    (applyLearning st k).memory.learned_patterns
      = st.memory.learned_patterns ++ [(k, ⟨1, isoTime st.now⟩)] := by
  simp [applyLearning, h, tick]

theorem applyLearning_old (st : AgentState) (k : String) (pi : PatternInfo)
    (h : lookupLP k st.memory.learned_patterns = some pi) :
    (applyLearning st k).memory.learned_patterns = bumpLP k st.memory.learned_patterns := by
  simp [applyLearning, h]

theorem applyEvalEffects_lp (st : AgentState) (ev : Json) (r : StepResult) :
    (applyEvalEffects st ev r).memory.learned_patterns
      = (applyLearnings st (emittedLearnings ev)).memory.learned_patterns := by
  by_cases hb : (Json.getD ev "errors" Json.null).truthy
  · simp [applyEvalEffects, hb, saveMemory, pushError, tick]
  · simp [applyEvalEffects, hb, saveMemory]

/-- Effect of one parsed evaluation emitting exactly the learning `k` on a
state where `k` is new. -/
theorem evaluate_result_lp_new (st : AgentState) (r : StepResult) (s : String) (ev : Json)
    (k : String)
    (h1 : extractBraces (st.oracle.headD "") = some s) (h2 : jsonParse s = some ev)
    (h4 : emittedLearnings ev = [k])
    (h6 : lookupLP k st.memory.learned_patterns = none) :
    lookupLP k ((evaluate_result st r).2).memory.learned_patterns = some ⟨1, isoTime st.now⟩ := by
  rw [evaluate_result_parsed st r s ev h1 h2]
  rw [applyEvalEffects_lp, h4]
  show lookupLP k (applyLearning { st with oracle := st.oracle.tail } k).memory.learned_patterns = _
  rw [applyLearning_new { st with oracle := st.oracle.tail } k h6]
  exact lookupLP_append_of_none k _ _ h6

/-- Effect of one parsed evaluation emitting exactly the learning `k` on a
state where `k` is already present. -/
theorem evaluate_result_lp_old (st : AgentState) (r : StepResult) (s : String) (ev : Json)
    (k : String) (pi : PatternInfo)
    (h1 : extractBraces (st.oracle.headD "") = some s) (h2 : jsonParse s = some ev)
    (h4 : emittedLearnings ev = [k])
    (h6 : lookupLP k st.memory.learned_patterns = some pi) :
    lookupLP k ((evaluate_result st r).2).memory.learned_patterns
      = some ⟨pi.count + 1, pi.first_seen⟩ := by
  rw [evaluate_result_parsed st r s ev h1 h2]
  rw [applyEvalEffects_lp, h4]
  show lookupLP k (applyLearning { st with oracle := st.oracle.tail } k).memory.learned_patterns = _
  rw [applyLearning_old { st with oracle := st.oracle.tail } k pi h6]
  exact lookupLP_bump k pi _ h6

/-- The evaluator's return value depends only on the scripted response. -/
theorem evaluate_result_fst (st : AgentState) (r : StepResult) :
    (evaluate_result st r).1 = evalOutcome (st.oracle.headD "") := by
  rcases h1 : extractBraces (st.oracle.headD "") with _ | s
  · rw [evaluate_result_noJson st r h1]
    simp only [evalOutcome, h1]
  · rcases h2 : jsonParse s with _ | ev
    · rw [evaluate_result_default st r s h1 h2]
      simp only [evalOutcome, h1, h2]
    · rw [evaluate_result_parsed st r s ev h1 h2]
      simp only [evalOutcome, h1, h2]

/-- One iteration of the step loop on a step whose evaluation reports
failure, when the retry's evaluation also yields a value. -/
theorem runSteps_failRetry (st : AgentState) (ctx : Ctx) (acc : List StepResult) (i : Nat)
    (step : String) (rest : List String) (r1 r2 r3 r4 : String) (tl : List String)
    (ev ev2 : Json)
    (h0 : st.oracle = r1 :: r2 :: r3 :: r4 :: tl)
    (h2 : evalOutcome r2 = some ev)
    (h3 : (Json.getD ev "success" (Json.bool false)).truthy = false)
    (h4 : evalOutcome r4 = some ev2) :
    ∃ st4 res1 res3,
      runSteps st ctx acc i (step :: rest)
        = runSteps st4 (ctxInsert ctx (i + 1) ⟨step, res1, ev⟩) (acc ++ [res1, res3]) (i + 1) rest ∧
      res1.step = step ∧ res1.response = r1 ∧ res1.success = true ∧
      res3.step = fixPromptFor ev step ∧ res3.response = r3 ∧ res3.success = true ∧
      st4.execLog = st.execLog ++ [step, fixPromptFor ev step] ∧
      st4.oracle = tl := by
  have hes := execute_step_eq st step ctx
  have hOr1 : (execute_step st step ctx).2.oracle = r2 :: r3 :: r4 :: tl := by
    rw [hes, h0]; rfl
  have hLg1 : (execute_step st step ctx).2.execLog = st.execLog ++ [step] := by
    rw [hes]
  have hfst1 : (evaluate_result (execute_step st step ctx).2 (execute_step st step ctx).1).1
      = some ev := by
    rw [evaluate_result_fst, hOr1]
    simpa using h2
  have hevframe := evaluate_result_frame (execute_step st step ctx).2 (execute_step st step ctx).1
  have hOr2 : (evaluate_result (execute_step st step ctx).2 (execute_step st step ctx).1).2.oracle
      = r3 :: r4 :: tl := by
    rw [hevframe.2.2.2.1, hOr1]; rfl
  have hLg2 : (evaluate_result (execute_step st step ctx).2
      (execute_step st step ctx).1).2.execLog = st.execLog ++ [step] := by
    rw [hevframe.2.2.2.2, hLg1]
  set stE := (evaluate_result (execute_step st step ctx).2 (execute_step st step ctx).1).2
    with hstE
  have hes2 := execute_step_eq stE (fixPromptFor ev step)
    (ctxInsert ctx (i + 1) ⟨step, (execute_step st step ctx).1, ev⟩)
  have hOr3 : (execute_step stE (fixPromptFor ev step)
      (ctxInsert ctx (i + 1) ⟨step, (execute_step st step ctx).1, ev⟩)).2.oracle
      = r4 :: tl := by
    rw [hes2, hOr2]; rfl
  have hLg3 : (execute_step stE (fixPromptFor ev step)
      (ctxInsert ctx (i + 1) ⟨step, (execute_step st step ctx).1, ev⟩)).2.execLog
      = st.execLog ++ [step] ++ [fixPromptFor ev step] := by
    rw [hes2, hLg2]
  set stF := (execute_step stE (fixPromptFor ev step)
    (ctxInsert ctx (i + 1) ⟨step, (execute_step st step ctx).1, ev⟩)).2 with hstF
  set res3 := (execute_step stE (fixPromptFor ev step)
    (ctxInsert ctx (i + 1) ⟨step, (execute_step st step ctx).1, ev⟩)).1 with hres3
  have hfst2 : (evaluate_result stF res3).1 = some ev2 := by
    rw [evaluate_result_fst, hOr3]
    simpa using h4
  have hevframe2 := evaluate_result_frame stF res3
  refine ⟨(evaluate_result stF res3).2, (execute_step st step ctx).1, res3, ?_, ?_, ?_, ?_,
    ?_, ?_, ?_, ?_, ?_⟩
  · rw [runSteps]
    simp only [hfst1, h3, Bool.false_eq_true, if_false, hfst2]
    rw [List.append_assoc]
    rfl
  · rw [hes]
  · rw [hes, h0]; rfl
  · rw [hes]
  · rw [hres3, hes2]
  · rw [hres3, hes2, hOr2]; rfl
  · rw [hres3, hes2]
  · rw [hevframe2.2.2.2.2, hLg3, List.append_assoc]; rfl
  · rw [hevframe2.2.2.2.1, hOr3]; rfl

theorem memInv_congr (m m' : AgentMemory) (h1 : m'.task_plans = m.task_plans)
    (h2 : m'.completed_tasks = m.completed_tasks) (h : memInv m) : memInv m' := by
  rw [memInv, h1, h2]; exact h

theorem memInv_fields (m m' : AgentMemory) (p : TaskPlan) (h : memInv m)
    (htp : m'.task_plans = m.task_plans ++ [p])
    (hct : m'.completed_tasks = m.completed_tasks) : memInv m' := by
  constructor
  · rw [htp, hct, List.length_append, List.length_singleton]
    exact h.1.trans (Nat.le_add_right _ _)
  · intro id hid
    rw [hct] at hid
    obtain ⟨q, hq, hq2, hq3⟩ := h.2 id hid
    exact ⟨q, htp ▸ List.mem_append_left _ hq, hq2, hq3⟩

theorem memInv_fields_done (m m' : AgentMemory) (p : TaskPlan) (h : memInv m)
    (hp : p.status = "completed")
    (htp : m'.task_plans = m.task_plans ++ [p])
    (hct : m'.completed_tasks = m.completed_tasks ++ [p.task_id]) : memInv m' := by
  constructor
  · rw [htp, hct, List.length_append, List.length_append, List.length_singleton,
      List.length_singleton]
    exact Nat.add_le_add_right h.1 1
  · intro id hid
    rw [hct] at hid
    rcases List.mem_append.1 hid with hid' | hid'
    · obtain ⟨q, hq, hq2, hq3⟩ := h.2 id hid'
      exact ⟨q, htp ▸ List.mem_append_left _ hq, hq2, hq3⟩
    · have : id = p.task_id := by simpa using hid'
      exact ⟨p, htp ▸ List.mem_append_right _ (by simp), this.symm, hp⟩

/-- What one full task execution does to plans and completed tasks. -/
theorem execute_task_cases (st : AgentState) (req : String) :
    ((execute_task st req).2.memory.task_plans = st.memory.task_plans ∧
     (execute_task st req).2.memory.completed_tasks = st.memory.completed_tasks) ∨
    (∃ p : TaskPlan,
      (execute_task st req).2.memory.task_plans = st.memory.task_plans ++ [p] ∧
      (execute_task st req).2.memory.completed_tasks = st.memory.completed_tasks) ∨
    (∃ p : TaskPlan, p.status = "completed" ∧
      (execute_task st req).2.memory.task_plans = st.memory.task_plans ++ [p] ∧
      (execute_task st req).2.memory.completed_tasks = st.memory.completed_tasks ++ [p.task_id]) := by
  rcases hp : (plan_task (pushUserConv st req) req).1 with _ | plan
  · left
    have hm := (plan_task_mem (pushUserConv st req) req).1 (plan_task (pushUserConv st req) req).2
      (by rw [← hp])
    constructor
    · show (execute_task st req).2.memory.task_plans = _
      simp only [execute_task, hp]
      rw [hm]
      rfl
    · simp only [execute_task, hp]
      rw [hm]
      rfl
  · have hmem := (plan_task_mem (pushUserConv st req) req).2 plan
      (plan_task (pushUserConv st req) req).2 (by rw [← hp])
    have hframe := runSteps_frame (({ plan with status := "in_progress" } : TaskPlan).steps)
      (startPlan (plan_task (pushUserConv st req) req).2 { plan with status := "in_progress" })
      ⟨req, []⟩ [] 0
    set rsState := (runSteps (startPlan (plan_task (pushUserConv st req) req).2
        { plan with status := "in_progress" }) ⟨req, []⟩ [] 0
        ({ plan with status := "in_progress" } : TaskPlan).steps).2 with hrsState
    have htp : rsState.memory.task_plans
        = st.memory.task_plans ++ [{ plan with status := "in_progress" }] := by
      rw [hrsState, hframe.1]
      show ((plan_task (pushUserConv st req) req).2.memory.task_plans.set
        ((plan_task (pushUserConv st req) req).2.memory.task_plans.length - 1)
        { plan with status := "in_progress" }) = _
      rw [hmem]
      show ((pushUserConv st req).memory.task_plans ++ [plan]).set
        (((pushUserConv st req).memory.task_plans ++ [plan]).length - 1) _ = _
      rw [List.length_append]
      simp only [List.length_singleton, Nat.add_sub_cancel]
      exact setLastAux _ _ _
    have hct : rsState.memory.completed_tasks = st.memory.completed_tasks := by
      rw [hrsState, hframe.2]
      show (plan_task (pushUserConv st req) req).2.memory.completed_tasks = _
      rw [hmem]
      rfl
    rcases hrs : (runSteps (startPlan (plan_task (pushUserConv st req) req).2
        { plan with status := "in_progress" }) ⟨req, []⟩ [] 0
        ({ plan with status := "in_progress" } : TaskPlan).steps).1 with _ | pr
    · right; left
      refine ⟨{ plan with status := "in_progress" }, ?_, ?_⟩
      · show (execute_task st req).2.memory.task_plans = _
        simp only [execute_task, hp, hrs]
        exact htp
      · simp only [execute_task, hp, hrs]
        exact hct
    · right; right
      have heq : execute_task st req = finishTask rsState { plan with status := "in_progress" } pr.2 := by
        simp only [execute_task, hp, hrs]
      refine ⟨{ plan with status := "completed", completed_at := some rsState.now }, rfl, ?_, ?_⟩
      · rw [heq, finishTask_eq]
        show rsState.memory.task_plans.set (rsState.memory.task_plans.length - 1) _ = _
        rw [htp, List.length_append]
        simp only [List.length_singleton, Nat.add_sub_cancel]
        exact setLastAux _ _ _
      · rw [heq, finishTask_eq]
        show rsState.memory.completed_tasks
            ++ [({ plan with status := "in_progress" } : TaskPlan).task_id] = _
        rw [hct]

theorem memInv_plan_op (m : AgentMemory) (d : Option Json) (o : List String) (n : Nat)
    (l : List String) (req : String) (h : memInv m) :
    memInv (plan_task ⟨m, d, o, n, l⟩ req).2.memory := by
  rcases hop : (plan_task ⟨m, d, o, n, l⟩ req).1 with _ | p
  · have hm := (plan_task_mem ⟨m, d, o, n, l⟩ req).1 (plan_task ⟨m, d, o, n, l⟩ req).2
      (by rw [← hop])
    rw [hm]
    exact h
  · have hm := (plan_task_mem ⟨m, d, o, n, l⟩ req).2 p (plan_task ⟨m, d, o, n, l⟩ req).2
      (by rw [← hop])
    exact memInv_fields m _ p h (by rw [hm]) (by rw [hm])

/-- Every reachable memory satisfies the §3 invariant. -/
theorem reachable_memInv (m : AgentMemory) (h : Reachable m) : memInv m := by
  induction h with
  | init =>
    constructor
    · exact Nat.le_refl 0
    · intro id hid
      simp [emptyMemory] at hid
  | plan m d o n l req _ ih => exact memInv_plan_op m d o n l req ih
  | step m d o n l s c _ ih =>
    refine memInv_congr m _ ?_ ?_ ih
    · rw [execute_step_eq]
    · rw [execute_step_eq]
  | eval m d o n l r _ ih =>
    have hf := evaluate_result_frame ⟨m, d, o, n, l⟩ r
    exact memInv_congr m _ hf.1 hf.2.1 ih
  | task m d o n l req _ ih =>
    rcases execute_task_cases ⟨m, d, o, n, l⟩ req with ⟨h1, h2⟩ | ⟨p, h1, h2⟩ | ⟨p, hp, h1, h2⟩
    · exact memInv_congr m _ h1 h2 ih
    · exact memInv_fields m _ p ih h1 h2
    · exact memInv_fields_done m _ p ih hp h1 h2

theorem asNat_natCast (n : Nat) : asNat (Json.num (n : Int)) = some n := by
  simp only [asNat]
  rw [if_neg (by omega)]
  simp

theorem decodeList_encode {α : Type} (f : α → Json) (g : Json → Option α)
    (hfg : ∀ x, g (f x) = some x) : ∀ xs : List α, decodeList g (xs.map f) = some xs := by
  intro xs
  induction xs with
  | nil => rfl
  | cons x xs ih => simp [decodeList, hfg x, ih]

theorem decodeConvEntry_encode (e : ConvEntry) : decodeConvEntry (encodeConvEntry e) = some e := by
  rcases e with ⟨r, c, t⟩
  rfl

theorem decodePattern_encode (pi : PatternInfo) : decodePattern (encodePattern pi) = some pi := by
  rcases pi with ⟨c, fs⟩
  simp [decodePattern, encodePattern, lookupField, asNat_natCast, asStr]

theorem decodeStepResult_encode (r : StepResult) :
    decodeStepResult (encodeStepResult r) = some r := by
  rcases r with ⟨s, rp, t, ok⟩
  rfl

theorem decodeError_encode (e : ErrorRecord) : decodeError (encodeError e) = some e := by
  rcases e with ⟨t, errs, ctx⟩
  simp [decodeError, encodeError, lookupField, asStr, decodeStepResult_encode]

theorem decodeTaskPlan_encode (now : Nat) (p : TaskPlan) :
    decodeTaskPlan now (encodeTaskPlan p) = some p := by
  rcases p with ⟨tid, desc, steps, status, created, completed⟩
  cases completed with
  | none =>
    simp [decodeTaskPlan, encodeTaskPlan, lookupField, asStr, asNat_natCast, decodeWithArr,
      decodeList_encode Json.str asStr (fun _ => rfl) steps]
  | some t =>
    simp [decodeTaskPlan, encodeTaskPlan, lookupField, asStr, asNat_natCast, decodeWithArr,
      decodeList_encode Json.str asStr (fun _ => rfl) steps]

theorem decodePairsLP_encode :
    ∀ l : List (String × PatternInfo),
      decodePairsLP (l.map fun kv => (kv.1, encodePattern kv.2)) = some l := by
  intro l
  induction l with
  | nil => rfl
  | cons kv rest ih => simp [decodePairsLP, decodePattern_encode, ih]

/-- The persisted document decodes back to the memory it was written from. -/
theorem decodeMemory_encode (now : Nat) (m : AgentMemory) :
    decodeMemory now (encodeMemory m) = some m := by
  rcases m with ⟨ch, tp, ct, lp, el⟩
  simp [decodeMemory, encodeMemory, lookupField, decodeWithArr,
    decodeList_encode encodeConvEntry decodeConvEntry decodeConvEntry_encode ch,
    decodeList_encode encodeTaskPlan (decodeTaskPlan now) (decodeTaskPlan_encode now) tp,
    decodeList_encode Json.str asStr (fun _ => rfl) ct,
    decodePairsLP_encode lp,
    decodeList_encode encodeError decodeError decodeError_encode el]

/-- Claim C1: a task execution that returns a result (all steps attempted) marks
the plan completed with a completion time, appends the plan's task id to
`completed_tasks` exactly once, and reports task-level success `true`, with
no hypothesis on any step evaluation's outcome. -/
theorem C1_execute_task_completes (st : AgentState) (req : String)
    (h : ((execute_task st req).1).isSome = true) :
    ∃ res st', execute_task st req = (some res, st') ∧
      res.success = true ∧
      res.plan.status = "completed" ∧
      (∃ t, res.plan.completed_at = some t) ∧
      st'.memory.completed_tasks = st.memory.completed_tasks ++ [res.plan.task_id] ∧
      st'.memory.task_plans.getLast? = some res.plan := by
  rcases hp : (plan_task (pushUserConv st req) req).1 with _ | plan
  · exfalso
    simp only [execute_task, hp, Option.isSome_none] at h
    exact Bool.false_ne_true h
  · have hmem := (plan_task_mem (pushUserConv st req) req).2 plan
      (plan_task (pushUserConv st req) req).2 (by rw [← hp])
    rcases hrs : (runSteps (startPlan (plan_task (pushUserConv st req) req).2
        { plan with status := "in_progress" }) ⟨req, []⟩ [] 0
        ({ plan with status := "in_progress" } : TaskPlan).steps).1 with _ | pr
    · exfalso
      simp only [execute_task, hp, hrs, Option.isSome_none] at h
      exact Bool.false_ne_true h
    · have heq : execute_task st req
          = finishTask (runSteps (startPlan (plan_task (pushUserConv st req) req).2
              { plan with status := "in_progress" }) ⟨req, []⟩ [] 0
              ({ plan with status := "in_progress" } : TaskPlan).steps).2
            { plan with status := "in_progress" } pr.2 := by
        simp only [execute_task, hp, hrs]
      set rsState := (runSteps (startPlan (plan_task (pushUserConv st req) req).2
          { plan with status := "in_progress" }) ⟨req, []⟩ [] 0
          ({ plan with status := "in_progress" } : TaskPlan).steps).2 with hrsState
      have hframe := runSteps_frame (({ plan with status := "in_progress" } : TaskPlan).steps)
        (startPlan (plan_task (pushUserConv st req) req).2 { plan with status := "in_progress" })
        ⟨req, []⟩ [] 0
      have htp : rsState.memory.task_plans
          = (pushUserConv st req).memory.task_plans ++ [{ plan with status := "in_progress" }] := by
        rw [hrsState]
        rw [hframe.1]
        show ((plan_task (pushUserConv st req) req).2.memory.task_plans.set
          ((plan_task (pushUserConv st req) req).2.memory.task_plans.length - 1)
          { plan with status := "in_progress" }) = _
        rw [hmem]
        show (((pushUserConv st req).memory.task_plans ++ [plan]).set
          (((pushUserConv st req).memory.task_plans ++ [plan]).length - 1) _) = _
        rw [List.length_append]
        simp only [List.length_singleton, Nat.add_sub_cancel]
        exact setLastAux _ _ _
      have hct : rsState.memory.completed_tasks = st.memory.completed_tasks := by
        rw [hrsState, hframe.2]
        show (plan_task (pushUserConv st req) req).2.memory.completed_tasks = _
        rw [hmem]
        rfl
      rw [heq, finishTask_eq]
      refine ⟨_, _, rfl, rfl, rfl, ⟨rsState.now, rfl⟩, ?_, ?_⟩
      · show rsState.memory.completed_tasks ++ [({ plan with status := "in_progress" } : TaskPlan).task_id]
            = st.memory.completed_tasks ++ [_]
        rw [hct]
      · show (rsState.memory.task_plans.set (rsState.memory.task_plans.length - 1)
            { plan with status := "completed", completed_at := some rsState.now }).getLast? = _
        rw [htp, List.length_append]
        simp only [List.length_singleton, Nat.add_sub_cancel]
        rw [setLastAux]
        simp

/-- Witness for C1: a one-step task whose step evaluation succeeds. -/
theorem C1_execute_task_completes_witness :
    ((execute_task ⟨emptyMemory, none, c1Script, 0, []⟩ "write an adder").1).isSome = true ∧
    (∃ res st', execute_task ⟨emptyMemory, none, c1Script, 0, []⟩ "write an adder"
        = (some res, st') ∧
      res.success = true ∧
      res.plan.status = "completed" ∧
      (∃ t, res.plan.completed_at = some t) ∧
      st'.memory.completed_tasks = [res.plan.task_id] ∧
      st'.memory.task_plans.getLast? = some res.plan) :=
  ⟨by rfl, C1_execute_task_completes ⟨emptyMemory, none, c1Script, 0, []⟩ "write an adder" (by rfl)⟩

/-- C2 (code bug): on an LLM response with no brace-delimited text at all,
`plan_task` returns Python `None` and appends nothing — the `except` fallback
never runs because no exception is raised — contradicting the claimed
fallback TaskPlan; the fallback does fire once a brace-delimited but
malformed text is present. -/
theorem C2_plan_no_json_bug :
    plan_task ⟨emptyMemory, none, [c2NoJsonResp], 5, []⟩ "build a calculator"
      = (none, ⟨emptyMemory, none, [], 5, []⟩) ∧
    plan_task ⟨emptyMemory, none, [c2BadJsonResp], 5, []⟩ "build a calculator"
      = (some c2FallbackPlan, ⟨⟨[], [c2FallbackPlan], [], [], []⟩, none, [], 7, []⟩) :=
  ⟨rfl, rfl⟩

/-- C3 (code bug): on a plain-prose evaluator response with no
brace-delimited text, `evaluate_result` returns Python `None`, not the
default failure evaluation; the default is produced only when a
brace-delimited text is present but does not parse. -/
theorem C3_evaluate_no_json_bug :
    evaluate_result ⟨emptyMemory, none, ["Everything went well."], 5, []⟩ c3StepResult
      = (none, ⟨emptyMemory, none, [], 5, []⟩) ∧
    evaluate_result ⟨emptyMemory, none, ["Verdict: \x7bmaybe\x7d"], 5, []⟩ c3StepResult
      = (some defaultEvaluation, ⟨emptyMemory, none, [], 5, []⟩) :=
  ⟨rfl, rfl⟩

/-- Claim C4 counterexample: a two-step plan whose first step's evaluation reports
failure and whose retry evaluation is plain prose.  The executor runs exactly
twice for step "s1" (the log has two entries and none for "s2"), but the task
aborts — `execute_task` crashes on the `None` retry evaluation — so the loop
does not advance to the next step "regardless of the retry's outcome". -/
theorem C4_retry_abort_counterexample :
    (execute_task ⟨emptyMemory, none, c4AbortScript, 0, []⟩ "r").1 = none ∧
    (execute_task ⟨emptyMemory, none, c4AbortScript, 0, []⟩ "r").2.execLog
      = ["s1", fixPromptFor c4FailEv "s1"] :=
  ⟨rfl, rfl⟩

/-- Claim C4 as amended: for a step whose evaluation reports failure, provided the
retry's evaluation also yields a value, the Executor is invoked exactly twice
for that step, the context keeps the original result and evaluation, and the
loop advances to the next step with no second retry. -/
theorem C4_retry_once_amended (st : AgentState) (ctx : Ctx) (acc : List StepResult) (i : Nat)
    (step : String) (rest : List String) (r1 r2 r3 r4 : String) (tl : List String)
    (ev ev2 : Json)
    (h0 : st.oracle = r1 :: r2 :: r3 :: r4 :: tl)
    (h2 : evalOutcome r2 = some ev)
    (h3 : (Json.getD ev "success" (Json.bool false)).truthy = false)
    (h4 : evalOutcome r4 = some ev2) :
    ∃ st4 res1 res3,
      runSteps st ctx acc i (step :: rest)
        = runSteps st4 (ctxInsert ctx (i + 1) ⟨step, res1, ev⟩) (acc ++ [res1, res3]) (i + 1) rest ∧
      res1.step = step ∧ res1.response = r1 ∧ res1.success = true ∧
      res3.step = fixPromptFor ev step ∧ res3.response = r3 ∧ res3.success = true ∧
      st4.execLog = st.execLog ++ [step, fixPromptFor ev step] ∧
      st4.oracle = tl :=
  runSteps_failRetry st ctx acc i step rest r1 r2 r3 r4 tl ev ev2 h0 h2 h3 h4

/-- Witness for the amended C4 on a concrete failing step with a parsed
retry evaluation. -/
theorem C4_retry_once_amended_witness :
    evalOutcome c4EvalFail = some c4FailEv ∧
    (Json.getD c4FailEv "success" (Json.bool false)).truthy = false ∧
    evalOutcome c4EvalOk = some c4OkEv ∧
    (∃ st4 res1 res3,
      runSteps c4WitnessState ⟨"r", []⟩ [] 0 ["s1", "s2"]
        = runSteps st4 (ctxInsert ⟨"r", []⟩ 1 ⟨"s1", res1, c4FailEv⟩) [res1, res3] 1 ["s2"] ∧
      res1.step = "s1" ∧ res1.response = "attempt 1" ∧ res1.success = true ∧
      res3.step = fixPromptFor c4FailEv "s1" ∧ res3.response = "attempt 2" ∧
      res3.success = true ∧
      st4.execLog = [] ++ ["s1", fixPromptFor c4FailEv "s1"] ∧
      st4.oracle = []) :=
  ⟨by rfl, by rfl, by rfl,
    C4_retry_once_amended c4WitnessState ⟨"r", []⟩ [] 0 "s1" ["s2"]
      "attempt 1" c4EvalFail "attempt 2" c4EvalOk [] c4FailEv c4OkEv
      (by rfl) (by rfl) (by rfl) (by rfl)⟩

/-- Claim C5: a parsed evaluation emitting the learning `k` inserts it with
count 1 and `first_seen` set to the current clock when absent, increments the
count and leaves `first_seen` unchanged when present, and two successive such
evaluations starting from an absent key leave count 2 with the first
occurrence's `first_seen`. -/
theorem C5_learning_upsert (st : AgentState) (r1 r2 : String) (tl : List String)
    (s1 s2 : String) (ev1 ev2 : Json) (k : String) (res1 res2 : StepResult)
    (h0 : st.oracle = r1 :: r2 :: tl)
    (h1 : extractBraces r1 = some s1) (h2 : jsonParse s1 = some ev1)
    (h3 : extractBraces r2 = some s2) (h4 : jsonParse s2 = some ev2)
    (h5 : emittedLearnings ev1 = [k]) (h6 : emittedLearnings ev2 = [k]) :
    (∀ c fs, lookupLP k st.memory.learned_patterns = some ⟨c, fs⟩ →
      lookupLP k ((evaluate_result st res1).2).memory.learned_patterns = some ⟨c + 1, fs⟩) ∧
    (lookupLP k st.memory.learned_patterns = none →
      lookupLP k ((evaluate_result st res1).2).memory.learned_patterns
        = some ⟨1, isoTime st.now⟩ ∧
      lookupLP k ((evaluate_result (evaluate_result st res1).2 res2).2).memory.learned_patterns
        = some ⟨2, isoTime st.now⟩) := by
  have hhd1 : extractBraces (st.oracle.headD "") = some s1 := by
    rw [h0]
    exact h1
  constructor
  · intro c fs hc
    exact evaluate_result_lp_old st res1 s1 ev1 k ⟨c, fs⟩ hhd1 h2 h5 hc
  · intro hnone
    have hA := evaluate_result_lp_new st res1 s1 ev1 k hhd1 h2 h5 hnone
    refine ⟨hA, ?_⟩
    have hfr := evaluate_result_frame st res1
    have hhd2 : extractBraces ((evaluate_result st res1).2.oracle.headD "") = some s2 := by
      rw [hfr.2.2.2.1, h0]
      exact h3
    have hB := evaluate_result_lp_old (evaluate_result st res1).2 res2 s2 ev2 k
      ⟨1, isoTime st.now⟩ hhd2 h4 h6 hA
    exact hB

/-- Witness for C5: two evaluations emitting "use caching" from a fresh
memory leave count 2 and the first call's timestamp. -/
theorem C5_learning_upsert_witness :
    extractBraces c5LearnResp = some c5LearnResp ∧
    jsonParse c5LearnResp = some c5LearnEv ∧
    emittedLearnings c5LearnEv = ["use caching"] ∧
    ((∀ c fs, lookupLP "use caching" c5State.memory.learned_patterns = some ⟨c, fs⟩ →
      lookupLP "use caching" ((evaluate_result c5State c5Res).2).memory.learned_patterns
        = some ⟨c + 1, fs⟩) ∧
    (lookupLP "use caching" c5State.memory.learned_patterns = none →
      lookupLP "use caching" ((evaluate_result c5State c5Res).2).memory.learned_patterns
        = some ⟨1, isoTime c5State.now⟩ ∧
      lookupLP "use caching"
          ((evaluate_result (evaluate_result c5State c5Res).2 c5Res).2).memory.learned_patterns
        = some ⟨2, isoTime c5State.now⟩)) :=
  ⟨by rfl, by rfl, by rfl,
    C5_learning_upsert c5State c5LearnResp c5LearnResp [] c5LearnResp c5LearnResp
      c5LearnEv c5LearnEv "use caching" c5Res c5Res
      (by rfl) (by rfl) (by rfl) (by rfl) (by rfl) (by rfl) (by rfl)⟩

/-- Claim C6: loading a missing file yields a fresh empty memory; loading existing
but undecodable data fails with the corrupt-state error rather than silently
returning a fresh memory; decodable data loads as itself. -/
theorem C6_load_missing_or_corrupt (now : Nat) (j : Json)
    (h : decodeMemory now j = none) :
    load_from_file none now = Except.ok emptyMemory ∧
    load_from_file (some j) now = Except.error LoadError.corrupt ∧
    ∀ j2 m, decodeMemory now j2 = some m → load_from_file (some j2) now = Except.ok m := by
  refine ⟨rfl, ?_, ?_⟩
  · simp [load_from_file, h]
  · intro j2 m hm
    simp [load_from_file, hm]

/-- Witness for C6 at a concrete corrupt document. -/
theorem C6_load_missing_or_corrupt_witness :
    decodeMemory 0 (Json.str "oops") = none ∧
    (load_from_file none 0 = Except.ok emptyMemory ∧
     load_from_file (some (Json.str "oops")) 0 = Except.error LoadError.corrupt ∧
     ∀ j2 m, decodeMemory 0 j2 = some m → load_from_file (some j2) 0 = Except.ok m) :=
  ⟨by rfl, C6_load_missing_or_corrupt 0 (Json.str "oops") (by rfl)⟩

/-- Claim C7: saving any memory and loading it back yields the same memory
(timestamps being serialized through their clock encoding). -/
theorem C7_save_load_roundtrip (m : AgentMemory) (now : Nat) :
    load_from_file (some (save_to_file m)) now = Except.ok m := by
  simp [load_from_file, save_to_file, decodeMemory_encode]

/-- Claim C9: the Step Executor always reports success, echoes the step and the
collaborator's response, and appends exactly one assistant entry to the
conversation history. -/
theorem C9_executor_always_succeeds (st : AgentState) (step : String) (ctx : Ctx) :
    (execute_step st step ctx).1.success = true ∧
    (execute_step st step ctx).1.step = step ∧
    (execute_step st step ctx).1.response = st.oracle.headD "" ∧
    ∃ t, (execute_step st step ctx).2.memory.conversation_history
      = st.memory.conversation_history
          ++ [⟨"assistant", (execute_step st step ctx).1.response, t⟩] := by
  rw [execute_step_eq]
  exact ⟨rfl, rfl, rfl, ⟨isoTime (st.now + 1), rfl⟩⟩

/-- Claim C10: the Step Executor's only memory mutation is the conversation append:
plans, completed tasks, learned patterns and the error log are unchanged, and
it never writes the backing file. -/
theorem C10_executor_frame (st : AgentState) (step : String) (ctx : Ctx) :
    (execute_step st step ctx).2.memory.task_plans = st.memory.task_plans ∧
    (execute_step st step ctx).2.memory.completed_tasks = st.memory.completed_tasks ∧
    (execute_step st step ctx).2.memory.learned_patterns = st.memory.learned_patterns ∧
    (execute_step st step ctx).2.memory.error_log = st.memory.error_log ∧
    (execute_step st step ctx).2.disk = st.disk := by
  rw [execute_step_eq]
  exact ⟨rfl, rfl, rfl, rfl, rfl⟩

/-- Claim C8 counterexample: two full task executions whose planner responses carry
the same `task_id` "t" produce a reachable memory in which "t" appears in
`completed_tasks` but corresponds to two completed plans, not exactly one. -/
theorem C8_duplicate_task_id_counterexample :
    Reachable c8MemTwo ∧
    "t" ∈ c8MemTwo.completed_tasks ∧
    planCompletedCount c8MemTwo "t" = 2 ∧
    ¬ ∀ id ∈ c8MemTwo.completed_tasks, planCompletedCount c8MemTwo id = 1 := by
  refine ⟨?_, by decide, by decide, by decide⟩
  have h1 : Reachable (execute_task ⟨emptyMemory, none, c8Script, 0, []⟩ "r").2.memory :=
    Reachable.task emptyMemory none c8Script 0 [] "r" Reachable.init
  exact Reachable.task c8StateOne.memory c8StateOne.disk c8StateOne.oracle c8StateOne.now
    c8StateOne.execLog "r" h1

/-- Claim C8 as amended: in every reachable memory, `completed_tasks` is no longer
than `task_plans`, and — provided the plans carry pairwise distinct task ids,
as §3's "opaque unique identifier" requires — every completed task id
corresponds to exactly one completed plan. -/
theorem C8_invariant_amended (m : AgentMemory) (h : Reachable m) :
    m.completed_tasks.length ≤ m.task_plans.length ∧
    ((m.task_plans.map TaskPlan.task_id).Nodup →
      ∀ id ∈ m.completed_tasks, planCompletedCount m id = 1) := by
  have hinv := reachable_memInv m h
  refine ⟨hinv.1, ?_⟩
  intro hnd id hid
  obtain ⟨p, hp, hp2, hp3⟩ := hinv.2 id hid
  have hge : 0 < planCompletedCount m id := by
    rw [planCompletedCount, List.countP_pos_iff]
    exact ⟨p, hp, by simp [hp2, hp3]⟩
  have hle : planCompletedCount m id ≤ 1 := by
    have hmono : planCompletedCount m id
        ≤ m.task_plans.countP (fun q => q.task_id == id) := by
      rw [planCompletedCount]
      refine List.countP_mono_left ?_
      intro x _ hx
      rw [Bool.and_eq_true] at hx
      exact hx.1
    have hmap : m.task_plans.countP (fun q => q.task_id == id)
        = (m.task_plans.map TaskPlan.task_id).count id := by
      rw [List.count_eq_countP, List.countP_map]
      rfl
    have hcount := List.nodup_iff_count_le_one.1 hnd id
    omega
  omega

/-- Witness for the amended C8 at the initial reachable memory. -/
theorem C8_invariant_amended_witness :
    emptyMemory.completed_tasks.length ≤ emptyMemory.task_plans.length ∧
    ((emptyMemory.task_plans.map TaskPlan.task_id).Nodup →
      ∀ id ∈ emptyMemory.completed_tasks, planCompletedCount emptyMemory id = 1) :=
  C8_invariant_amended emptyMemory Reachable.init
